import Mathlib

/-!
Verification of the bibliography parsing and formatting pipeline of a personal
academic website generator.  The repository has two Python files, `app.py`
(a Flask app) and `render_static.py` (a static-site renderer), which duplicate
the bibliography logic.  Python strings are embedded as `List Char` (Python
strings are sequences of code points); Python dicts keyed by strings are
embedded as association lists with insert-or-update-in-place semantics, which
preserves the insertion iteration order of Python dicts.  File reads are
embedded by passing the file content as `Option (List Char)` (`none` when the
file does not exist).  Regular-expression scanning (`re.finditer` with the two
concrete patterns used by the parser) is embedded as an explicit left-to-right
scan, which is what the Python regex engine does on these backtracking-free
patterns.
-/

/-- Python strings, embedded as lists of code points. -/
abbrev Str := List Char

/-- Python `str.strip()`: drop leading and trailing whitespace. -/
def trimList (s : Str) : Str :=
  ((s.dropWhile Char.isWhitespace).reverse.dropWhile Char.isWhitespace).reverse

/-- Python `str.lower()` (per-character, sufficient for the ASCII data here). -/
def lowerStr (s : Str) : Str := s.map Char.toLower

/-- Python `needle in hay` substring test. -/
def isSubstr (needle : Str) : Str → Bool
  | [] => needle.isEmpty
  | c :: rest => needle.isPrefixOf (c :: rest) || isSubstr needle rest

/-- Split off everything before the first occurrence of `sep`, returning the
part before it and the part after it (`none` when `sep` does not occur). -/
def splitFirst (sep : Str) : Str → Option (Str × Str)
  | [] => none
  | c :: rest =>
    if sep.isPrefixOf (c :: rest) then some ([], (c :: rest).drop sep.length)
    else
      match splitFirst sep rest with
      | some (pre, post) => some (c :: pre, post)
      | none => none

/-- Fuel-driven loop of `pySplit`; the fuel `s.length` always suffices because
each found separator occurrence strictly shrinks the remaining string. -/
def splitGo (sep : Str) : Nat → Str → List Str
  | 0, s => [s]
  | fuel + 1, s =>
    match splitFirst sep s with
    | none => [s]
    | some (pre, post) => pre :: splitGo sep fuel post

/-- Python `str.split(sep)` for a non-empty literal separator. -/
def pySplit (sep : Str) (s : Str) : List Str :=
  if sep.isEmpty then [s] else splitGo sep s.length s

/-- Python `str.replace(pat, repl)` for a non-empty `pat`. -/
def pyReplace (pat repl s : Str) : Str := List.intercalate repl (pySplit pat s)

/-- Python `str.split()` with no argument: split on whitespace runs, no empty
tokens. -/
def pySplitWs (s : Str) : List Str :=
  (List.splitOnP Char.isWhitespace s).filter (fun t => !t.isEmpty)

/-- Python dict assignment `d[k] = v`: update the value in place when the key
exists (keeping its position in iteration order), else append. -/
def pyInsert (d : List (Str × α)) (k : Str) (v : α) : List (Str × α) :=
  match d with
  | [] => [(k, v)]
  | (k1, v1) :: rest => if k1 = k then (k1, v) :: rest else (k1, v1) :: pyInsert rest k v

/-- Python `d.get(k)`: `none` when the key is absent. -/
def pyGet (d : List (Str × α)) (k : Str) : Option α :=
  match d with
  | [] => none
  | (k1, v1) :: rest => if k1 = k then some v1 else pyGet rest k

/-- Python `d.get(k, dflt)`. -/
def pyGetD (d : List (Str × α)) (k : Str) (dflt : α) : α := (pyGet d k).getD dflt

/-- Python truthiness of an optional string (`None` and `""` are falsy). -/
def truthyOptStr : Option Str → Bool
  | some s => !s.isEmpty
  | none => false

/-- Python `a or b` on strings. -/
def pyOr (a b : Str) : Str := if a.isEmpty then b else a

-- ────────────────────────────────────────────────────────────────────────────
-- Citation parser: `parse_bib_file` (identical core in app.py lines 12-35 and
-- render_static.py lines 48-69).
-- ────────────────────────────────────────────────────────────────────────────

def atChar : Char := '@'

def braceOpen : Char := '\x7b'

def braceClose : Char := '\x7d'

def commaChar : Char := ','

/-- Python regex `\w` on the ASCII data used here. -/
def isWordChar (c : Char) : Bool := c.isAlphanum || c = '_'

/-- One attempt of the entry pattern `@(\w+)\{([^,]+),([^@]*)` at a position
just after an `@`: the type is the maximal word-character run (non-empty,
greedy `\w+` followed by the literal brace can match nothing shorter), the key
is the maximal non-comma run (non-empty), and the fields blob is the maximal
non-`@` run.  Returns the three capture groups and the rest of the input. -/
def tryMatchEntry (s : Str) : Option (Str × Str × Str × Str) :=
  let t := s.takeWhile isWordChar
  if t.isEmpty then none
  else
    match s.dropWhile isWordChar with
    | [] => none
    | c :: s2 =>
      if c = braceOpen then
        let k := s2.takeWhile (fun ch => ch ≠ commaChar)
        if k.isEmpty then none
        else
          match s2.dropWhile (fun ch => ch ≠ commaChar) with
          | [] => none
          | _ :: s3 =>
            some (t, k, s3.takeWhile (fun ch => ch ≠ atChar), s3.dropWhile (fun ch => ch ≠ atChar))
      else none

/-- `re.finditer` scan for the entry pattern: try a match at each position from
left to right (a match can only start at an `@`), and continue after the end
of each match.  Fuel-driven; `content.length` fuel suffices since every step
consumes at least one character. -/
def scanBibGo : Nat → Str → List (Str × Str × Str)
  | 0, _ => []
  | _ + 1, [] => []
  | fuel + 1, c :: rest =>
    if c = atChar then
      match tryMatchEntry rest with
      | some (t, k, fl, rem) => (t, k, fl) :: scanBibGo fuel rem
      | none => scanBibGo fuel rest
    else scanBibGo fuel rest

/-- All matches of the entry pattern in the source text, in order. -/
def scanBib (content : Str) : List (Str × Str × Str) := scanBibGo content.length content

/-- One attempt of the field pattern `(\w+)\s*=\s*\{([^}]*)\}` at a given
position: maximal word run (non-empty), optional whitespace, `=`, optional
whitespace, brace-delimited value (maximal non-closing-brace run). -/
def tryMatchField (s : Str) : Option (Str × Str × Str) :=
  let n := s.takeWhile isWordChar
  if n.isEmpty then none
  else
    match (s.dropWhile isWordChar).dropWhile Char.isWhitespace with
    | [] => none
    | c :: s2 =>
      if c = '=' then
        match s2.dropWhile Char.isWhitespace with
        | [] => none
        | c2 :: s3 =>
          if c2 = braceOpen then
            let v := s3.takeWhile (fun ch => ch ≠ braceClose)
            match s3.dropWhile (fun ch => ch ≠ braceClose) with
            | [] => none
            | _ :: s4 => some (n, v, s4)
          else none
      else none

/-- `re.finditer` scan for the field pattern inside one entry's fields blob. -/
def scanFieldsGo : Nat → Str → List (Str × Str)
  | 0, _ => []
  | _ + 1, [] => []
  | fuel + 1, c :: rest =>
    match tryMatchField (c :: rest) with
    | some (n, v, rem) => (n, v) :: scanFieldsGo fuel rem
    | none => scanFieldsGo fuel rest

def scanFields (s : Str) : List (Str × Str) := scanFieldsGo s.length s

def typeKey : Str := "_type".toList

/-- Field value cleanup: `.strip()`, then `.replace('\\#', '#')`, then
`.replace('\n', ' ')`, then `.strip()`. -/
def cleanValue (v : Str) : Str :=
  trimList (pyReplace ("\n".toList) (" ".toList) (pyReplace ("\\#".toList) ("#".toList) (trimList v)))

/-- Python dict of one entry's fields, keyed by lower-cased field name, with
the `_type` marker inserted first. -/
abbrev Fields := List (Str × Str)

def mkFields (t : Str) (fieldsStr : Str) : Fields :=
  (scanFields fieldsStr).foldl (fun d nv => pyInsert d (lowerStr nv.1) (cleanValue nv.2))
    [(typeKey, lowerStr t)]

abbrev BibDict := List (Str × Fields)

/-- The body of `parse_bib_file` after reading the file: build the key → fields
dict from the regex matches, last occurrence of a key winning. -/
def parseBibContent (content : Str) : BibDict :=
  (scanBib content).foldl (fun d m => pyInsert d (trimList m.2.1) (mkFields m.1 m.2.2)) []

/-- `parse_bib_file` from app.py (lines 12-35): returns an empty dict when the
file does not exist. -/
def parseBibFileApp (file : Option Str) : BibDict :=
  match file with
  | none => []
  | some content => parseBibContent content

/-- `parse_bib_file` from render_static.py (lines 48-69): opens the file
unconditionally, so a missing file raises `FileNotFoundError`. -/
def parseBibFileStatic (file : Option Str) : Except Unit BibDict :=
  match file with
  | none => Except.error ()
  | some content => Except.ok (parseBibContent content)

-- ────────────────────────────────────────────────────────────────────────────
-- Author formatter: `format_authors` (render_static.py lines 72-98; app.py
-- lines 38-57 is the same without the equal-contribution parameter).
-- ────────────────────────────────────────────────────────────────────────────

def sepAnd : Str := " and ".toList

/-- The `if ',' in author` reformatting step: `"Last, First"` becomes
`"First Last"` via `author.split(',')` and parts 1 and 0. -/
def reformatAuthor (author : Str) : Str :=
  if commaChar ∈ author then
    let parts := pySplit [commaChar] author
    trimList (parts.getD 1 []) ++ ' ' :: trimList (parts.getD 0 [])
  else author

def hlOpen : Str := "<span class=\"highlight\">".toList

def hlClose : Str := "</span>".toList

def ecMark : Str := "<span class=\"equal-contrib\">*</span>".toList

/-- The highlight test: `highlight_name` is truthy and it, or one of its
whitespace-split parts, occurs case-insensitively inside the name. -/
def highlightCond (highlightName : Option Str) (name : Str) : Bool :=
  match highlightName with
  | none => false
  | some h =>
    !h.isEmpty &&
      (isSubstr (lowerStr h) (lowerStr name) ||
        (pySplitWs h).any (fun p => isSubstr (lowerStr p) (lowerStr name)))

/-- The equal-contribution test: `equal_contribution` is truthy and contains
the author's zero-based index. -/
def ecCond (ec : Option (List Nat)) (i : Nat) : Bool :=
  match ec with
  | none => false
  | some l => !l.isEmpty && l.contains i

/-- The loop body of `format_authors` for author number `i`. -/
def formatOneAuthor (highlightName : Option Str) (ec : Option (List Nat)) (i : Nat)
    (author : Str) : Str :=
  let name := reformatAuthor author
  let name := if highlightCond highlightName name then hlOpen ++ name ++ hlClose else name
  if ecCond ec i then name ++ ecMark else name

/-- The final join of `format_authors`: one name as is, two joined by
`" and "`, three or more comma-separated with `", and "` before the last.
The empty case cannot arise (`str.split` never returns an empty list). -/
def joinFormatted (formatted : List Str) : Str :=
  match formatted with
  | [] => []
  | [x] => x
  | [x, y] => x ++ " and ".toList ++ y
  | xs => List.intercalate (", ".toList) xs.dropLast ++ ", and ".toList ++ xs.getLastD []

/-- `format_authors` from render_static.py (lines 72-98). -/
def formatAuthors (authorStr : Str) (highlightName : Option Str)
    (equalContribution : Option (List Nat)) : Str :=
  let authors := (pySplit sepAnd authorStr).map trimList
  joinFormatted
    (authors.enum.map (fun ia => formatOneAuthor highlightName equalContribution ia.1 ia.2))

/-- `format_authors` from app.py (lines 38-57): no equal-contribution
parameter, otherwise the same loop. -/
def formatAuthorsApp (authorStr : Str) (highlightName : Option Str) : Str :=
  let authors := (pySplit sepAnd authorStr).map trimList
  joinFormatted
    (authors.map (fun a =>
      let name := reformatAuthor a
      if highlightCond highlightName name then hlOpen ++ name ++ hlClose else name))

-- ────────────────────────────────────────────────────────────────────────────
-- Entry formatter: `format_publication` (render_static.py lines 101-131;
-- app.py lines 60-88 is identical apart from calling app.py's
-- `format_authors`).
-- ────────────────────────────────────────────────────────────────────────────

def thesisDefault : Str := "Master\x27s Thesis".toList

/-- The type-dependent venue computation of `format_publication`
(render_static.py lines 108-124). -/
def formatPubVenue (entry : Fields) : Str :=
  let et := pyGetD entry typeKey []
  if et = ("inproceedings".toList) then
    let venue := pyGetD entry ("booktitle".toList) []
    let venue :=
      match pyGet entry ("volume".toList) with
      | some v => if v.isEmpty then venue else venue ++ ", vol. ".toList ++ v
      | none => venue
    match pyGet entry ("pages".toList) with
    | some p => if p.isEmpty then venue else venue ++ ", pp. ".toList ++ p
    | none => venue
  else if et = ("article".toList) then
    let venue := pyGetD entry ("journal".toList) []
    match pyGet entry ("volume".toList) with
    | some v => if v.isEmpty then venue else venue ++ ", vol. ".toList ++ v
    | none => venue
  else if et = ("mastersthesis".toList) then
    pyGetD entry ("type".toList) thesisDefault ++ ", ".toList ++ pyGetD entry ("school".toList) []
  else
    pyOr (pyGetD entry ("journal".toList) []) (pyGetD entry ("booktitle".toList) [])

/-- `format_publication` from render_static.py (lines 101-131). -/
def formatPublication (entry : Fields) (highlightName : Option Str) : Str :=
  let authors := formatAuthors (pyGetD entry ("author".toList) []) highlightName none
  let title := pyGetD entry ("title".toList) []
  let year := pyGetD entry ("year".toList) []
  let url := pyGetD entry ("url".toList) []
  let venue := formatPubVenue entry
  let titleHtml :=
    if url.isEmpty then title
    else "<a href=\"".toList ++ url ++ "\" target=\"_blank\">".toList ++ title ++ "</a>".toList
  "<p class=\"pub-entry\">".toList ++ authors ++ ". <strong>".toList ++ titleHtml
    ++ "</strong>. <em>".toList ++ venue ++ "</em>, ".toList ++ year ++ ".".toList

/-- `format_publication` from app.py (lines 60-88): same text, but it calls
app.py's `format_authors`. -/
def formatPublicationApp (entry : Fields) (highlightName : Option Str) : Str :=
  let authors := formatAuthorsApp (pyGetD entry ("author".toList) []) highlightName
  let title := pyGetD entry ("title".toList) []
  let year := pyGetD entry ("year".toList) []
  let url := pyGetD entry ("url".toList) []
  let venue := formatPubVenue entry
  let titleHtml :=
    if url.isEmpty then title
    else "<a href=\"".toList ++ url ++ "\" target=\"_blank\">".toList ++ title ++ "</a>".toList
  "<p class=\"pub-entry\">".toList ++ authors ++ ". <strong>".toList ++ titleHtml
    ++ "</strong>. <em>".toList ++ venue ++ "</em>, ".toList ++ year ++ ".".toList

-- ────────────────────────────────────────────────────────────────────────────
-- Metadata merger: `load_publications` (render_static.py lines 311-371).
-- ────────────────────────────────────────────────────────────────────────────

/-- The venue computation inside the `load_publications` loop
(render_static.py lines 341-350). -/
def mergerVenue (entry : Fields) : Str :=
  let et := pyGetD entry typeKey []
  if et = ("inproceedings".toList) then pyGetD entry ("booktitle".toList) []
  else if et = ("article".toList) then pyGetD entry ("journal".toList) []
  else if et = ("mastersthesis".toList) then
    pyGetD entry ("type".toList) thesisDefault ++ ", ".toList ++ pyGetD entry ("school".toList) []
  else
    pyOr (pyGetD entry ("journal".toList) []) (pyGetD entry ("booktitle".toList) [])

/-- Per-key metadata overlay record (`publications_meta.json` values). -/
structure PubMeta where
  abstract : Option Str := none
  paper_url : Option Str := none
  slides_url : Option Str := none
  code_url : Option Str := none
  figure : Option Str := none
  also_at : Option (List Str) := none
  equal_contribution : Option (List Nat) := none
deriving DecidableEq

/-- One merged publication record (the `pub` dict of render_static.py
lines 352-366). -/
structure Pub where
  key : Str
  title : Str
  authors : Str
  venue : Str
  year : Str
  type : Str
  abstract : Str
  paper_url : Str
  slides_url : Option Str
  code_url : Option Str
  figure : Option Str
  also_at : List Str
deriving DecidableEq

/-- Python truthiness of the `equal_contribution` metadata value. -/
def ecTruthy : Option (List Nat) → Bool
  | some l => !l.isEmpty
  | none => false

def highlightOwner : Str := "Roytburg".toList

/-- Building one merged record (render_static.py lines 330-366, body of the
loop without the flag update). -/
def mkPub (key : Str) (entry : Fields) (meta : PubMeta) : Pub :=
  { key := key
    title := pyGetD entry ("title".toList) []
    authors :=
      formatAuthors (pyGetD entry ("author".toList) []) (some highlightOwner)
        meta.equal_contribution
    venue := mergerVenue entry
    year := pyGetD entry ("year".toList) []
    type := pyGetD entry typeKey []
    abstract := meta.abstract.getD []
    paper_url :=
      match meta.paper_url with
      | some u => if u.isEmpty then pyGetD entry ("url".toList) [] else u
      | none => pyGetD entry ("url".toList) []
    slides_url := meta.slides_url
    code_url := meta.code_url
    figure := meta.figure
    also_at := meta.also_at.getD [] }

/-- The loop body of `load_publications`: append the merged record and update
the `has_equal_contrib` flag. -/
def loadPubsStep (metadata : List (Str × PubMeta)) (acc : List Pub × Bool)
    (kv : Str × Fields) : List Pub × Bool :=
  let meta := (pyGet metadata kv.1).getD {}
  (acc.1 ++ [mkPub kv.1 kv.2 meta], acc.2 || ecTruthy meta.equal_contribution)

/-- The loop of `load_publications` over `bib_entries.items()`, before the
final sort. -/
def loadPubsRaw (content : Str) (metadata : List (Str × PubMeta)) : List Pub × Bool :=
  (parseBibContent content).foldl (loadPubsStep metadata) ([], false)

/-- Python string comparison: lexicographic on code points. -/
def strLt : Str → Str → Bool
  | [], [] => false
  | [], _ :: _ => true
  | _ :: _, [] => false
  | a :: as, b :: bs => a.toNat < b.toNat || (a.toNat = b.toNat && strLt as bs)

/-- Stable descending insertion by year: the new element goes after all
strictly larger years and before the first year less than or equal to its
own, so earlier elements keep their place among equal years. -/
def insertDesc (x : Pub) : List Pub → List Pub
  | [] => [x]
  | y :: ys => if strLt x.year y.year then y :: insertDesc x ys else x :: y :: ys

/-- `publications.sort(key=lambda x: x['year'], reverse=True)`: Python's sort
is stable, and a stable sort is uniquely determined by the comparator, so the
stable insertion sort is extensionally the same function. -/
def sortByYearDesc (l : List Pub) : List Pub := l.foldr insertDesc []

/-- `load_publications` from render_static.py (lines 311-371).  The bib file
content is `none` when `roytburg.bib` does not exist; the metadata mapping is
`none` when `publications_meta.json` does not exist. -/
def load_publications (bibFile : Option Str) (metaFile : Option (List (Str × PubMeta))) :
    List Pub × Bool :=
  match bibFile with
  | none => ([], false)
  | some content =>
    let raw := loadPubsRaw content (metaFile.getD [])
    (sortByYearDesc raw.1, raw.2)

-- ────────────────────────────────────────────────────────────────────────────
-- CV assembler: `generate_cv_html` (render_static.py lines 134-237; app.py
-- lines 91-186).
-- ────────────────────────────────────────────────────────────────────────────

/-- One entry of the `degrees` list of `cv.json` (all fields are accessed
unconditionally by the code). -/
structure Degree where
  degree : Str
  discipline : Str
  school : Str
  year : Str
deriving DecidableEq

/-- One entry of the `employment` list of `cv.json`.  `end-month` is only read
when `end-year` is present; it is embedded with a default for the (unused)
case of an `end-year` without an `end-month`. -/
structure Job where
  title : Str
  affiliation : Str
  location : Str
  startMonth : Str
  startYear : Str
  endMonth : Option Str
  endYear : Option Str
  description : Str
deriving DecidableEq

/-- One entry of the `awards` list of `cv.json`. -/
structure Award where
  title : Str
  year : Option Str
  years : Option (List Str)
deriving DecidableEq

/-- The `bibliography` mapping of `cv.json`: citation keys by category. -/
structure CVBib where
  conferencePapers : Option (List Str)
  journalArticles : Option (List Str)
  theses : Option (List Str)
deriving DecidableEq

/-- The top-level `cv.json` record; optional keys are `Option` (the code
tests `'key' in cv_data`), `given-name` and `sur-name` are read
unconditionally. -/
structure CVData where
  givenName : Str
  surName : Str
  summary : Option Str
  degrees : Option (List Degree)
  employment : Option (List Job)
  bibliography : Option CVBib
  awards : Option (List Award)
  skills : Option (List Str)
deriving DecidableEq

def sectionClose : Str := "      </section>".toList

def summaryOpen : Str :=
  "\n      <section class=\"cv-section\">\n        <h2>Summary</h2>\n        <p>".toList

def summaryCloseStr : Str := "</p>\n      </section>".toList

/-- The Summary block of `html_parts`. -/
def summaryParts (cv : CVData) : List Str :=
  match cv.summary with
  | some s => [summaryOpen ++ s ++ summaryCloseStr]
  | none => []

def educationOpen : Str :=
  "\n      <section class=\"cv-section\">\n        <h2>Education</h2>".toList

/-- One degree's `html_parts` entry. -/
def degreeEntry (d : Degree) : Str :=
  "\n        <div class=\"cv-entry\">\n          <div class=\"cv-entry-header\">\n            <span class=\"cv-degree\">".toList
    ++ d.degree ++ ", ".toList ++ d.discipline
    ++ "</span>\n            <span class=\"cv-year\">".toList ++ d.year
    ++ "</span>\n          </div>\n          <div class=\"cv-school\">".toList ++ d.school
    ++ "</div>\n        </div>".toList

/-- The Education block of `html_parts`. -/
def eduParts (cv : CVData) : List Str :=
  match cv.degrees with
  | some ds => educationOpen :: (ds.map degreeEntry ++ [sectionClose])
  | none => []

def experienceOpen : Str :=
  "\n      <section class=\"cv-section\">\n        <h2>Experience</h2>".toList

/-- One employment entry of `html_parts`: start is month and year, end is
month and year when `end-year` is present, else the literal `Present`. -/
def jobEntry (j : Job) : Str :=
  let start := j.startMonth ++ ' ' :: j.startYear
  let endStr :=
    match j.endYear with
    | some ey => j.endMonth.getD [] ++ ' ' :: ey
    | none => "Present".toList
  "\n        <div class=\"cv-entry\">\n          <div class=\"cv-entry-header\">\n            <span class=\"cv-title\">".toList
    ++ j.title ++ "</span>\n            <span class=\"cv-dates\">".toList
    ++ start ++ " – ".toList ++ endStr
    ++ "</span>\n          </div>\n          <div class=\"cv-org\">".toList
    ++ j.affiliation ++ ", ".toList ++ j.location
    ++ "</div>\n          <p class=\"cv-description\">".toList ++ j.description
    ++ "</p>\n        </div>".toList

/-- The Experience block of `html_parts`. -/
def expParts (cv : CVData) : List Str :=
  match cv.employment with
  | some js => experienceOpen :: (js.map jobEntry ++ [sectionClose])
  | none => []

def publicationsOpen : Str :=
  "\n      <section class=\"cv-section\">\n        <h2>Publications</h2>".toList

def confHeading : Str := "        <h3>Conference Papers</h3>".toList

def jaHeading : Str := "        <h3>Journal Articles</h3>".toList

def thesesHeading : Str := "        <h3>Theses</h3>".toList

def pubIndent : Str := "        ".toList

/-- One publications subsection: the `if <key> in bib and bib[<key>]:` guard,
the subsection heading, then one formatted line per key found in the parsed
bibliography (missing keys are skipped). -/
def pubBlock (heading : Str) (keys : Option (List Str)) (bibEntries : BibDict)
    (name : Str) : List Str :=
  match keys with
  | some l =>
    if l.isEmpty then []
    else heading :: l.filterMap (fun key =>
      (pyGet bibEntries key).map (fun e => pubIndent ++ formatPublication e (some name)))
  | none => []

/-- Same, for app.py, which calls app.py's `format_publication`. -/
def pubBlockApp (heading : Str) (keys : Option (List Str)) (bibEntries : BibDict)
    (name : Str) : List Str :=
  match keys with
  | some l =>
    if l.isEmpty then []
    else heading :: l.filterMap (fun key =>
      (pyGet bibEntries key).map (fun e => pubIndent ++ formatPublicationApp e (some name)))
  | none => []

/-- The Publications block of render_static.py's `generate_cv_html`
(lines 185-211): Conference Papers, then Journal Articles, then Theses. -/
def pubParts (cv : CVData) (bibEntries : BibDict) : List Str :=
  match cv.bibliography with
  | some bib =>
    let name := cv.givenName ++ ' ' :: cv.surName
    publicationsOpen
      :: (pubBlock confHeading bib.conferencePapers bibEntries name
        ++ pubBlock jaHeading bib.journalArticles bibEntries name
        ++ pubBlock thesesHeading bib.theses bibEntries name
        ++ [sectionClose])
  | none => []

/-- The Publications block of app.py's `generate_cv_html` (lines 150-166):
only Conference Papers and Theses. -/
def pubPartsApp (cv : CVData) (bibEntries : BibDict) : List Str :=
  match cv.bibliography with
  | some bib =>
    let name := cv.givenName ++ ' ' :: cv.surName
    publicationsOpen
      :: (pubBlockApp confHeading bib.conferencePapers bibEntries name
        ++ pubBlockApp thesesHeading bib.theses bibEntries name
        ++ [sectionClose])
  | none => []

def awardsOpen : Str :=
  "\n      <section class=\"cv-section\">\n        <h2>Awards & Recognition</h2>\n        <ul class=\"cv-list\">".toList

def awardsClose : Str := "        </ul>\n      </section>".toList

/-- render_static.py's award year string: the `year` field if present, else
the comma-joined `years` list if present, else empty. -/
def awardYearStr (a : Award) : Str :=
  match a.year with
  | some y => y
  | none =>
    match a.years with
    | some ys => List.intercalate (", ".toList) ys
    | none => []

/-- app.py's award year string: `str(award.get('year','')) or join(years)`. -/
def awardYearStrApp (a : Award) : Str :=
  pyOr (a.year.getD []) (List.intercalate (", ".toList) (a.years.getD []))

def awardEntry (a : Award) : Str :=
  "          <li>".toList ++ a.title ++ ", ".toList ++ awardYearStr a ++ "</li>".toList

def awardEntryApp (a : Award) : Str :=
  "          <li>".toList ++ a.title ++ ", ".toList ++ awardYearStrApp a ++ "</li>".toList

/-- The Awards block of `html_parts`. -/
def awardParts (cv : CVData) : List Str :=
  match cv.awards with
  | some as1 => awardsOpen :: (as1.map awardEntry ++ [awardsClose])
  | none => []

def awardPartsApp (cv : CVData) : List Str :=
  match cv.awards with
  | some as1 => awardsOpen :: (as1.map awardEntryApp ++ [awardsClose])
  | none => []

def skillsOpen : Str :=
  "\n      <section class=\"cv-section\">\n        <h2>Skills</h2>\n        <p class=\"cv-skills\">".toList

def skillsClose : Str := "</p>\n      </section>".toList

/-- The Skills block of `html_parts`. -/
def skillParts (cv : CVData) : List Str :=
  match cv.skills with
  | some sk => [skillsOpen ++ List.intercalate (" · ".toList) sk ++ skillsClose]
  | none => []

/-- The full `html_parts` list of render_static.py's `generate_cv_html`. -/
def generateCvParts (cv : CVData) (bibEntries : BibDict) : List Str :=
  summaryParts cv ++ eduParts cv ++ expParts cv ++ pubParts cv bibEntries
    ++ awardParts cv ++ skillParts cv

/-- The full `html_parts` list of app.py's `generate_cv_html`. -/
def generateCvPartsApp (cv : CVData) (bibEntries : BibDict) : List Str :=
  summaryParts cv ++ eduParts cv ++ expParts cv ++ pubPartsApp cv bibEntries
    ++ awardPartsApp cv ++ skillParts cv

/-- `generate_cv_html` from render_static.py (lines 134-237): the joined
`html_parts`. -/
def generateCvHtml (cv : CVData) (bibEntries : BibDict) : Str :=
  List.intercalate ("\n".toList) (generateCvParts cv bibEntries)

/-- `generate_cv_html` from app.py (lines 91-186), after loading `cv.json`
and the parsed bibliography. -/
def generateCvHtmlApp (cv : CVData) (bibEntries : BibDict) : Str :=
  List.intercalate ("\n".toList) (generateCvPartsApp cv bibEntries)

-- ────────────────────────────────────────────────────────────────────────────
-- Spec-side vocabulary and concrete inputs used by the claim theorems.
-- ────────────────────────────────────────────────────────────────────────────

/-- Spec 4.3: the `, vol. <volume>` suffix, added when the volume field is
present (and truthy). -/
def volSuffix (e : Fields) : Str :=
  match pyGet e ("volume".toList) with
  | some v => if v.isEmpty then [] else ", vol. ".toList ++ v
  | none => []

/-- Spec 4.3: the `, pp. <pages>` suffix, added when the pages field is
present (and truthy). -/
def pagesSuffix (e : Fields) : Str :=
  match pyGet e ("pages".toList) with
  | some p => if p.isEmpty then [] else ", pp. ".toList ++ p
  | none => []

/-- A conference-paper record with booktitle ICML, volume 2, pages 1-9. -/
def icmlEntry : Fields :=
  [(typeKey, "inproceedings".toList), ("booktitle".toList, "ICML".toList),
    ("volume".toList, "2".toList), ("pages".toList, "1-9".toList)]

/-- A thesis record with no `type` field. -/
def thesisEntry : Fields :=
  [(typeKey, "mastersthesis".toList), ("school".toList, "MIT".toList)]

-- ────────────────────────────────────────────────────────────────────────────
-- Claim theorems.
-- ────────────────────────────────────────────────────────────────────────────

/-- Claim C2, counterexample: render_static.py's `parse_bib_file` does not
return an empty mapping on a missing file; it raises (`open` on a missing
path), so the claim as stated is false for that copy. -/
theorem static_parse_missing_file_raises_cex : parseBibFileStatic none = Except.error () := rfl

/-- Claim C2, amended: app.py's `parse_bib_file` returns an empty mapping for
a missing file; render_static.py's raises `FileNotFoundError` there, and its
callers (`load_cv_content`, `load_publications`) check existence first, so a
missing bibliography still degrades to empty output. -/
theorem parse_missing_file_behavior :
    parseBibFileApp none = [] ∧ parseBibFileStatic none = Except.error ()
      ∧ load_publications none none = ([], false) :=
  ⟨rfl, rfl, rfl⟩

/-- Claim C7: for a conference-paper record (`_type = inproceedings`), the
Entry Formatter's venue is the booktitle followed by the `, vol. <volume>`
suffix when the volume field is present and non-empty, and then the
`, pp. <pages>` suffix when the pages field is present and non-empty. -/
theorem inproceedings_venue_rule :
    ∀ e : Fields, pyGetD e typeKey [] = ("inproceedings".toList) →
      formatPubVenue e = pyGetD e ("booktitle".toList) [] ++ volSuffix e ++ pagesSuffix e := by
  intro e h
  simp only [formatPubVenue, volSuffix, pagesSuffix, h, if_pos]
  cases hv : pyGet e ("volume".toList) with
  | none =>
    cases hp : pyGet e ("pages".toList) with
    | none => simp
    | some p => by_cases hpe : p.isEmpty <;> simp [hpe]
  | some v =>
    cases hp : pyGet e ("pages".toList) with
    | none => by_cases hve : v.isEmpty <;> simp [hve]
    | some p =>
      by_cases hve : v.isEmpty <;> by_cases hpe : p.isEmpty <;> simp [hve, hpe]

/-- Claim C7, witness: the ICML record yields `ICML, vol. 2, pp. 1-9`. -/
theorem inproceedings_venue_rule_witness :
    formatPubVenue icmlEntry = ("ICML, vol. 2, pp. 1-9".toList) := by
  have h := inproceedings_venue_rule icmlEntry (by decide)
  rw [h]; decide

/-- Claim C1, counterexample: on the ICML conference-paper record the
Metadata Merger's venue is `ICML` while the Entry Formatter's is
`ICML, vol. 2, pp. 1-9` — the merger does not append the `, vol.`/`, pp.`
suffixes, so its venue is not always the 4.3 venue. -/
theorem merger_venue_drops_suffixes_cex : mergerVenue icmlEntry ≠ formatPubVenue icmlEntry := by
  decide

/-- Claim C1, amended: the merger's venue agrees with the Entry Formatter's
venue exactly when no suffix would be added — i.e. for conference papers it
is the bare booktitle (it agrees iff the volume and pages fields are absent
or empty), for journal articles the bare journal (iff volume is absent or
empty), and for theses and all other types the two rules are identical. -/
theorem merger_formatter_venue_agreement :
    ∀ e : Fields, (mergerVenue e = formatPubVenue e ↔
      ((pyGetD e typeKey [] = ("inproceedings".toList) →
          truthyOptStr (pyGet e ("volume".toList)) = false
            ∧ truthyOptStr (pyGet e ("pages".toList)) = false)
        ∧ (pyGetD e typeKey [] = ("article".toList) →
          truthyOptStr (pyGet e ("volume".toList)) = false))) := by
  intro e
  by_cases h1 : pyGetD e typeKey [] = ("inproceedings".toList)
  · have h2 : ¬ pyGetD e typeKey [] = ("article".toList) := by rw [h1]; decide
    simp only [mergerVenue, formatPubVenue, h1, if_pos, h2, false_implies, and_true,
      forall_const, true_implies]
    cases hv : pyGet e ("volume".toList) with
    | none =>
      cases hp : pyGet e ("pages".toList) with
      | none => simp [truthyOptStr]
      | some p =>
        by_cases hpe : p.isEmpty <;>
          simp [truthyOptStr, hpe, List.self_eq_append_right, List.append_eq_nil]
    | some v =>
      cases hp : pyGet e ("pages".toList) with
      | none =>
        by_cases hve : v.isEmpty <;>
          simp [truthyOptStr, hve, List.self_eq_append_right, List.append_eq_nil]
      | some p =>
        by_cases hve : v.isEmpty <;> by_cases hpe : p.isEmpty <;>
          simp [truthyOptStr, hve, hpe, List.append_assoc, List.self_eq_append_right,
            List.append_eq_nil]
  · by_cases h2 : pyGetD e typeKey [] = ("article".toList)
    · simp only [mergerVenue, formatPubVenue, h1, h2, if_neg, if_pos, false_implies,
        true_and, true_implies]
      cases hv : pyGet e ("volume".toList) with
      | none => simp [truthyOptStr]
      | some v =>
        by_cases hve : v.isEmpty <;>
          simp [truthyOptStr, hve, List.self_eq_append_right, List.append_eq_nil]
    · simp only [mergerVenue, formatPubVenue]
      rw [if_neg h1, if_neg h2, if_neg h1, if_neg h2]
      exact ⟨fun _ => ⟨fun hc => absurd hc h1, fun hc => absurd hc h2⟩, fun _ => rfl⟩

/-- Claim C1, witness: for a thesis record the merger's venue and the Entry
Formatter's venue coincide. -/
theorem merger_formatter_venue_agreement_witness :
    mergerVenue thesisEntry = formatPubVenue thesisEntry :=
  (merger_formatter_venue_agreement thesisEntry).mpr (by decide)

/-- Claim C10: the merged record's `paper_url` is the metadata overlay's
`paper_url` when present and non-empty, else the citation record's `url`
field (defaulting to empty); every other metadata-derived field is taken from
the overlay alone, with no bibliography fallback. -/
theorem paper_url_metadata_fallback :
    ∀ (key : Str) (entry : Fields) (meta : PubMeta),
      (mkPub key entry meta).paper_url =
        (if truthyOptStr meta.paper_url then meta.paper_url.getD []
          else pyGetD entry ("url".toList) [])
      ∧ (mkPub key entry meta).slides_url = meta.slides_url
      ∧ (mkPub key entry meta).code_url = meta.code_url
      ∧ (mkPub key entry meta).figure = meta.figure
      ∧ (mkPub key entry meta).abstract = meta.abstract.getD []
      ∧ (mkPub key entry meta).also_at = meta.also_at.getD [] := by
  intro key entry meta
  refine ⟨?_, rfl, rfl, rfl, rfl, rfl⟩
  cases hpu : meta.paper_url with
  | none => simp [mkPub, truthyOptStr, hpu]
  | some u => by_cases hu : u.isEmpty <;> simp [mkPub, truthyOptStr, hpu, hu]

/-- Mapping a function of the element alone over an enumerated list ignores
the indices. -/
theorem enumFrom_map_snd (f : α → β) : ∀ (n : Nat) (l : List α),
    (List.enumFrom n l).map (fun ia => f ia.2) = l.map f := by
  intro n l
  induction l generalizing n with
  | nil => rfl
  | cons x xs ih => simp only [List.enumFrom, List.map_cons, ih]

/-- The `enumerate` form of the previous lemma. -/
theorem enum_map_snd (f : α → β) (l : List α) :
    l.enum.map (fun ia => f ia.2) = l.map f :=
  enumFrom_map_snd f 0 l

/-- With no highlight name and no equal-contribution set, the loop body of
`format_authors` is just the comma reformatting. -/
theorem formatOneAuthor_none (i : Nat) (a : Str) :
    formatOneAuthor none none i a = reformatAuthor a := by
  simp [formatOneAuthor, highlightCond, ecCond]

/-- With no equal-contribution set, the loop body of `format_authors` is
app.py's loop body. -/
theorem formatOneAuthor_no_ec (h : Option Str) (i : Nat) (a : Str) :
    formatOneAuthor h none i a =
      (if highlightCond h (reformatAuthor a) then hlOpen ++ reformatAuthor a ++ hlClose
        else reformatAuthor a) := by
  simp [formatOneAuthor, ecCond]

/-- Claim C5: with no highlight and no equal-contribution set,
`format_authors` splits on `" and "`, reformats each name, and joins by the
fixed rule — one name as is, two joined with `" and "`, three or more
comma-separated with `", and "` before the last; `"A and B and C"` becomes
`"A, B, and C"`, and app.py's `format_authors` is the same function with no
equal-contribution set. -/
theorem author_join_rule :
    (∀ s : Str, formatAuthors s none none =
      joinFormatted ((pySplit sepAnd s).map (fun a => reformatAuthor (trimList a))))
    ∧ (∀ x : Str, joinFormatted [x] = x)
    ∧ (∀ x y : Str, joinFormatted [x, y] = x ++ " and ".toList ++ y)
    ∧ (∀ (x y z : Str) (zs : List Str), joinFormatted (x :: y :: z :: zs) =
        List.intercalate (", ".toList) ((x :: y :: z :: zs).dropLast)
          ++ ", and ".toList ++ (x :: y :: z :: zs).getLastD [])
    ∧ formatAuthors ("A and B and C".toList) none none = ("A, B, and C".toList)
    ∧ (∀ (s : Str) (h : Option Str), formatAuthorsApp s h = formatAuthors s h none) := by
  refine ⟨?_, fun x => rfl, fun x y => rfl, fun x y z zs => rfl, by decide, ?_⟩
  · intro s
    simp only [formatAuthors]
    rw [List.map_congr_left (fun (ia : Nat × Str) _ => formatOneAuthor_none ia.1 ia.2),
      enum_map_snd reformatAuthor, List.map_map]
    rfl
  · intro s h
    simp only [formatAuthors, formatAuthorsApp]
    rw [List.map_congr_left (fun (ia : Nat × Str) _ => formatOneAuthor_no_ec h ia.1 ia.2),
      enum_map_snd (fun a =>
        if highlightCond h (reformatAuthor a) then hlOpen ++ reformatAuthor a ++ hlClose
        else reformatAuthor a)]

/-- A found separator occurrence leaves a strictly shorter remainder. -/
theorem splitFirst_length_lt (sep : Str) (hsep : sep ≠ []) :
    ∀ (s pre post : Str), splitFirst sep s = some (pre, post) → post.length < s.length := by
  intro s
  induction s with
  | nil => intro pre post h; simp [splitFirst] at h
  | cons c rest ih =>
    intro pre post h
    have hsl : 1 ≤ sep.length := List.length_pos.mpr hsep
    simp only [splitFirst] at h
    split at h
    · cases h
      simp only [List.length_drop, List.length_cons]
      omega
    · cases hm : splitFirst sep rest with
      | none => rw [hm] at h; cases h
      | some pp =>
        rw [hm] at h
        cases h
        have := ih pp.1 pp.2 (by rw [hm])
        simp only [List.length_cons]
        omega

/-- When the separator does not occur, any fuel returns the whole string. -/
theorem splitGo_of_none (sep s : Str) (h : splitFirst sep s = none) :
    ∀ fuel, splitGo sep fuel s = [s] := by
  intro fuel
  cases fuel with
  | zero => rfl
  | succ f => simp [splitGo, h]

/-- Any two sufficient fuels give the same split. -/
theorem splitGo_fuel_irrel (sep : Str) (hsep : sep ≠ []) :
    ∀ (fuel1 : Nat) (s : Str) (fuel2 : Nat), s.length ≤ fuel1 → s.length ≤ fuel2 →
      splitGo sep fuel1 s = splitGo sep fuel2 s := by
  intro fuel1
  induction fuel1 with
  | zero =>
    intro s fuel2 h1 h2
    have hs : s = [] := List.length_eq_zero.mp (Nat.le_zero.mp h1)
    subst hs
    cases fuel2 with
    | zero => rfl
    | succ f2 => simp [splitGo, show splitFirst sep [] = none from rfl]
  | succ f1 ih =>
    intro s fuel2 h1 h2
    cases fuel2 with
    | zero =>
      have hs : s = [] := List.length_eq_zero.mp (Nat.le_zero.mp h2)
      subst hs
      simp [splitGo, show splitFirst sep [] = none from rfl]
    | succ f2 =>
      cases hm : splitFirst sep s with
      | none => simp [splitGo, hm]
      | some pp =>
        have hlt := splitFirst_length_lt sep hsep s pp.1 pp.2 (by rw [hm])
        simp only [splitGo, hm]
        rw [ih pp.2 f2 (by omega) (by omega)]

/-- The recurrence of `pySplit` at a separator occurrence. -/
theorem pySplit_cons (sep : Str) (hsep : sep ≠ []) (s pre post : Str)
    (h : splitFirst sep s = some (pre, post)) :
    pySplit sep s = pre :: pySplit sep post := by
  have hlt := splitFirst_length_lt sep hsep s pre post h
  have hne : sep.isEmpty = false := by
    cases sep with
    | nil => exact absurd rfl hsep
    | cons a l => rfl
  simp only [pySplit, hne, Bool.false_eq_true, if_false]
  cases hl : s.length with
  | zero => omega
  | succ n =>
    rw [hl] at hlt
    simp only [splitGo, h]
    congr 1
    exact splitGo_fuel_irrel sep hsep n post post.length (by omega) (Nat.le_refl _)

/-- `pySplit` when the separator does not occur. -/
theorem pySplit_no_sep (sep s : Str) (h : splitFirst sep s = none) : pySplit sep s = [s] := by
  by_cases he : sep.isEmpty
  · simp [pySplit, he]
  · simp only [pySplit, he, Bool.false_eq_true, if_false]
    exact splitGo_of_none sep s h _

/-- No occurrence of a single-character separator in a string avoiding it. -/
theorem splitFirst_single_not_mem (c : Char) (s : Str) (h : c ∉ s) :
    splitFirst [c] s = none := by
  induction s with
  | nil => rfl
  | cons a rest ih =>
    have h1 : c ≠ a := fun hc => h (hc ▸ List.mem_cons_self a rest)
    have h2 : c ∉ rest := fun hc => h (List.mem_cons_of_mem a hc)
    have hp : [c].isPrefixOf (a :: rest) = false := by
      simp [List.isPrefixOf, h1]
    simp [splitFirst, hp, ih h2]

/-- The first occurrence of a single-character separator after a clean
prefix. -/
theorem splitFirst_single_append (c : Char) (a r : Str) (h : c ∉ a) :
    splitFirst [c] (a ++ c :: r) = some (a, r) := by
  induction a with
  | nil =>
    have hp : [c].isPrefixOf (c :: r) = true := by simp [List.isPrefixOf]
    simp [splitFirst, hp]
  | cons x xs ih =>
    have h1 : c ≠ x := fun hc => h (hc ▸ List.mem_cons_self x xs)
    have h2 : c ∉ xs := fun hc => h (List.mem_cons_of_mem x hc)
    have hp : [c].isPrefixOf (x :: (xs ++ c :: r)) = false := by
      simp [List.isPrefixOf, h1]
    simp [splitFirst, hp, ih h2]

/-- The comma-reformat step on a token with exactly one comma. -/
theorem reformat_two_segments (a b : Str) (ha : commaChar ∉ a) (hb : commaChar ∉ b) :
    reformatAuthor (a ++ commaChar :: b) = trimList b ++ ' ' :: trimList a := by
  have hmem : commaChar ∈ a ++ commaChar :: b := by simp
  have hsplit : pySplit [commaChar] (a ++ commaChar :: b) = [a, b] := by
    rw [pySplit_cons [commaChar] (by simp) _ a b (splitFirst_single_append commaChar a b ha),
      pySplit_no_sep [commaChar] b (splitFirst_single_not_mem commaChar b hb)]
  simp [reformatAuthor, hmem, hsplit]

/-- Claim C6: a token containing a comma is treated as `Last, First` and
re-emitted as `First Last` (trimmed), a comma-free token passes through
unchanged, and `"Smith, Jane and Doe, John"` becomes
`"Jane Smith and John Doe"`. -/
theorem author_comma_reformat :
    (∀ a b : Str, commaChar ∉ a → commaChar ∉ b →
      reformatAuthor (a ++ commaChar :: b) = trimList b ++ ' ' :: trimList a)
    ∧ (∀ t : Str, commaChar ∉ t → reformatAuthor t = t)
    ∧ formatAuthors ("Smith, Jane and Doe, John".toList) none none
        = ("Jane Smith and John Doe".toList) := by
  refine ⟨fun a b ha hb => reformat_two_segments a b ha hb, fun t ht => ?_, by decide⟩
  simp [reformatAuthor, ht]

/-- Claim C6, witness: the rule at the token `Smith, Jane`. -/
theorem author_comma_reformat_witness :
    reformatAuthor (("Smith".toList) ++ commaChar :: (" Jane".toList)) = ("Jane Smith".toList) := by
  have h := author_comma_reformat.1 ("Smith".toList) (" Jane".toList) (by decide) (by decide)
  rw [h]; decide

/-- Claim C9: a token with two or more commas keeps only the second
comma-separated segment followed by the first; the third and later segments
are dropped, as in `"Smith, Jane, Jr."` becoming `"Jane Smith"`. -/
theorem author_multi_comma_drops_rest :
    (∀ a b c : Str, commaChar ∉ a → commaChar ∉ b →
      reformatAuthor (a ++ commaChar :: (b ++ commaChar :: c)) = trimList b ++ ' ' :: trimList a)
    ∧ formatAuthors (("Smith, Jane, Jr.").toList) none none = ("Jane Smith".toList) := by
  refine ⟨fun a b c ha hb => ?_, by decide⟩
  have hmem : commaChar ∈ a ++ commaChar :: (b ++ commaChar :: c) := by simp
  have hsplit : pySplit [commaChar] (a ++ commaChar :: (b ++ commaChar :: c))
      = a :: b :: pySplit [commaChar] c := by
    rw [pySplit_cons [commaChar] (by simp) _ a (b ++ commaChar :: c)
        (splitFirst_single_append commaChar a (b ++ commaChar :: c) ha),
      pySplit_cons [commaChar] (by simp) _ b c
        (splitFirst_single_append commaChar b c hb)]
  simp [reformatAuthor, hmem, hsplit]

/-- Claim C9, witness: the rule at the token `Smith, Jane, Jr.`. -/
theorem author_multi_comma_drops_rest_witness :
    reformatAuthor (("Smith, Jane, Jr.").toList) = ("Jane Smith".toList) := by
  have h := author_multi_comma_drops_rest.1 ("Smith".toList) (" Jane".toList) (" Jr.".toList)
    (by decide) (by decide)
  have he : ("Smith, Jane, Jr.").toList
      = ("Smith".toList) ++ commaChar :: ((" Jane".toList) ++ commaChar :: (" Jr.".toList)) := by
    decide
  rw [he, h]; decide

/-- Lookup after a Python dict assignment: the assigned key maps to the new
value, all others are unchanged. -/
theorem pyGet_pyInsert (d : List (Str × α)) (k : Str) (v : α) (q : Str) :
    pyGet (pyInsert d k v) q = if q = k then some v else pyGet d q := by
  induction d with
  | nil =>
    rcases eq_or_ne q k with rfl | hq
    · simp [pyInsert, pyGet]
    · simp [pyInsert, pyGet, hq, Ne.symm hq]
  | cons p rest ih =>
    obtain ⟨k1, v1⟩ := p
    by_cases h1 : k1 = k
    · subst h1
      rcases eq_or_ne q k1 with rfl | hq
      · simp [pyInsert, pyGet]
      · simp [pyInsert, pyGet, hq, Ne.symm hq]
    · rcases eq_or_ne k1 q with rfl | hq
      · simp [pyInsert, pyGet, h1]
      · simp [pyInsert, pyGet, h1, hq, ih]

/-- The last entry-pattern match whose (trimmed) key is `k`. -/
def lastWith (k : Str) (ms : List (Str × Str × Str)) : Option (Str × Str × Str) :=
  ms.reverse.find? (fun m => trimList m.2.1 == k)

/-- Folding Python dict assignments over the match list: a lookup returns the
value built from the last match with that key, else whatever the initial dict
held. -/
theorem pyGet_foldl_insert (mk1 : (Str × Str × Str) → Fields) :
    ∀ (ms : List (Str × Str × Str)) (d : BibDict) (k : Str),
      pyGet (ms.foldl (fun d2 m => pyInsert d2 (trimList m.2.1) (mk1 m)) d) k
        = ((lastWith k ms).map mk1).or (pyGet d k) := by
  intro ms
  induction ms with
  | nil => intro d k; simp [lastWith]
  | cons m rest ih =>
    intro d k
    simp only [List.foldl_cons]
    rw [ih]
    simp only [lastWith, List.reverse_cons, List.find?_append]
    cases hf : (rest.reverse.find? (fun m2 => trimList m2.2.1 == k)) with
    | some x => rfl
    | none =>
      rw [pyGet_pyInsert]
      by_cases hk : trimList m.2.1 = k
      · simp [List.find?, hk]
      · have hk2 : (trimList m.2.1 == k) = false := by simp [hk]
        have hk3 : ¬ k = trimList m.2.1 := fun h => hk h.symm
        simp [List.find?, hk2, hk3]

def dupBib : Str :=
  "@article\x7bk, title = \x7bA\x7d\x7d @article\x7bk, title = \x7bB\x7d\x7d".toList

/-- Claim C8: for any source text, the parsed mapping binds each key to the
fields of the last entry-pattern match with that key (last occurrence wins);
in the concrete duplicate-key text the key `k` maps to the second block's
fields. -/
theorem duplicate_keys_last_occurrence_wins :
    (∀ (content : Str) (k : Str),
      pyGet (parseBibContent content) k
        = (lastWith k (scanBib content)).map (fun m => mkFields m.1 m.2.2))
    ∧ pyGet (parseBibContent dupBib) ("k".toList)
        = some [(typeKey, "article".toList), ("title".toList, "B".toList)] := by
  constructor
  · intro content k
    have h := pyGet_foldl_insert (fun m => mkFields m.1 m.2.2) (scanBib content) [] k
    simp only [parseBibContent]
    rw [h]
    simp [pyGet]
  · decide

theorem strLt_irrefl : ∀ s : Str, strLt s s = false := by
  intro s
  induction s with
  | nil => rfl
  | cons c cs ih => simp [strLt, ih]

theorem strLt_asymm : ∀ a b : Str, strLt a b = true → strLt b a = false := by
  intro a
  induction a with
  | nil =>
    intro b h
    cases b with
    | nil => simp [strLt] at h
    | cons y bs => rfl
  | cons x as ih =>
    intro b h
    cases b with
    | nil => simp [strLt] at h
    | cons y bs =>
      simp only [strLt, Bool.or_eq_true, Bool.and_eq_true, decide_eq_true_eq] at h
      rcases h with h1 | ⟨h1, h2⟩
      · have hn1 : ¬ (y.toNat < x.toNat) := by omega
        have hn2 : ¬ (y.toNat = x.toNat) := by omega
        simp [strLt, hn1, hn2]
      · have hn1 : ¬ (y.toNat < x.toNat) := by omega
        have he : y.toNat = x.toNat := by omega
        simp [strLt, hn1, he, ih bs h2]

theorem strLt_trans : ∀ a b c : Str, strLt a b = true → strLt b c = true → strLt a c = true := by
  intro a
  induction a with
  | nil =>
    intro b c h1 h2
    cases b with
    | nil => simp [strLt] at h1
    | cons y bs =>
      cases c with
      | nil => simp [strLt] at h2
      | cons z cs => rfl
  | cons x as ih =>
    intro b c h1 h2
    cases b with
    | nil => simp [strLt] at h1
    | cons y bs =>
      cases c with
      | nil => simp [strLt] at h2
      | cons z cs =>
        simp only [strLt, Bool.or_eq_true, Bool.and_eq_true, decide_eq_true_eq] at h1 h2 ⊢
        rcases h1 with h1 | ⟨he1, hs1⟩
        · rcases h2 with h2 | ⟨he2, hs2⟩
          · left; omega
          · left; omega
        · rcases h2 with h2 | ⟨he2, hs2⟩
          · left; omega
          · right; exact ⟨by omega, ih bs cs hs1 hs2⟩

theorem strLt_eq_of_not : ∀ a b : Str, strLt a b = false → strLt b a = false → a = b := by
  intro a
  induction a with
  | nil =>
    intro b h1 h2
    cases b with
    | nil => rfl
    | cons y bs => simp [strLt] at h1
  | cons x as ih =>
    intro b h1 h2
    cases b with
    | nil => simp [strLt] at h2
    | cons y bs =>
      have hx : ¬ (x.toNat < y.toNat) := by
        intro hlt
        have : strLt (x :: as) (y :: bs) = true := by simp [strLt, hlt]
        rw [this] at h1; cases h1
      have hy : ¬ (y.toNat < x.toNat) := by
        intro hlt
        have : strLt (y :: bs) (x :: as) = true := by simp [strLt, hlt]
        rw [this] at h2; cases h2
      have he : x.toNat = y.toNat := by omega
      have hce : x = y := by
        have h3 := congrArg Char.ofNat he
        rwa [Char.ofNat_toNat, Char.ofNat_toNat] at h3
      subst hce
      have hs1 : strLt as bs = false := by
        cases hs : strLt as bs with
        | false => rfl
        | true =>
          have : strLt (x :: as) (x :: bs) = true := by simp [strLt, hs]
          rw [this] at h1; cases h1
      have hs2 : strLt bs as = false := by
        cases hs : strLt bs as with
        | false => rfl
        | true =>
          have : strLt (x :: bs) (x :: as) = true := by simp [strLt, hs]
          rw [this] at h2; cases h2
      rw [ih bs hs1 hs2]

theorem strNotLt_trans (a b c : Str) (h1 : strLt a b = false) (h2 : strLt b c = false) :
    strLt a c = false := by
  cases hac : strLt a c with
  | false => rfl
  | true =>
    cases hba : strLt b a with
    | true =>
      have hbc := strLt_trans b a c hba hac
      rw [hbc] at h2; cases h2
    | false =>
      have hab := strLt_eq_of_not a b h1 hba
      rw [← hab] at h2
      rw [hac] at h2; cases h2

theorem mem_insertDesc (x z : Pub) : ∀ l : List Pub, z ∈ insertDesc x l ↔ z = x ∨ z ∈ l := by
  intro l
  induction l with
  | nil => simp [insertDesc]
  | cons y ys ih =>
    simp only [insertDesc]
    split
    · simp only [List.mem_cons, ih]
      tauto
    · simp only [List.mem_cons]

theorem pairwise_insertDesc (x : Pub) :
    ∀ l : List Pub, l.Pairwise (fun a b => strLt a.year b.year = false) →
      (insertDesc x l).Pairwise (fun a b => strLt a.year b.year = false) := by
  intro l
  induction l with
  | nil => intro _; simp [insertDesc]
  | cons y ys ih =>
    intro hp
    rw [List.pairwise_cons] at hp
    obtain ⟨hy, hys⟩ := hp
    simp only [insertDesc]
    split
    · rename_i hxy
      rw [List.pairwise_cons]
      refine ⟨?_, ih hys⟩
      intro z hz
      rcases (mem_insertDesc x z ys).mp hz with rfl | hzys
      · exact strLt_asymm _ _ hxy
      · exact hy z hzys
    · rename_i hxy
      have hxy2 : strLt x.year y.year = false := by
        cases h : strLt x.year y.year with
        | false => rfl
        | true => exact absurd h hxy
      rw [List.pairwise_cons]
      refine ⟨?_, ?_⟩
      · intro z hz
        rcases List.mem_cons.mp hz with rfl | hzys
        · exact hxy2
        · exact strNotLt_trans _ _ _ hxy2 (hy z hzys)
      · rw [List.pairwise_cons]
        exact ⟨hy, hys⟩

theorem sorted_sortByYearDesc (l : List Pub) :
    (sortByYearDesc l).Pairwise (fun a b => strLt a.year b.year = false) := by
  induction l with
  | nil => simp [sortByYearDesc]
  | cons x xs ih =>
    simp only [sortByYearDesc, List.foldr_cons]
    simp only [sortByYearDesc] at ih
    exact pairwise_insertDesc x _ ih

theorem filter_insertDesc (x : Pub) (Y : Str) :
    ∀ l : List Pub, (insertDesc x l).filter (fun p => p.year == Y)
      = (if x.year == Y then x :: l.filter (fun p => p.year == Y)
          else l.filter (fun p => p.year == Y)) := by
  intro l
  induction l with
  | nil =>
    by_cases hx : (x.year == Y) = true <;> simp [insertDesc, List.filter, hx]
  | cons y ys ih =>
    simp only [insertDesc]
    split
    · rename_i hxy
      cases hx : (x.year == Y) with
      | true =>
        cases hyy : (y.year == Y) with
        | true =>
          have h1 : x.year = Y := by simpa using hx
          have h2 : y.year = Y := by simpa using hyy
          rw [h1, h2, strLt_irrefl] at hxy
          cases hxy
        | false =>
          simp [List.filter_cons, hyy, ih, hx]
      | false =>
        simp [List.filter_cons, ih, hx]
    · rename_i hxy
      cases hx : (x.year == Y) with
      | true => simp [List.filter_cons, hx]
      | false => simp [List.filter_cons, hx]

theorem filter_sortByYearDesc (Y : Str) (l : List Pub) :
    (sortByYearDesc l).filter (fun p => p.year == Y) = l.filter (fun p => p.year == Y) := by
  induction l with
  | nil => rfl
  | cons x xs ih =>
    simp only [sortByYearDesc, List.foldr_cons] at ih ⊢
    rw [filter_insertDesc]
    cases hx : (x.year == Y) with
    | true => simp [List.filter_cons, hx, ih]
    | false => simp [List.filter_cons, hx, ih]

def bibYears : Str :=
  "@article\x7bk1, year = \x7b2020\x7d\x7d\n@article\x7bk2, year = \x7b2023\x7d\x7d\n@article\x7bk3, year = \x7b2019\x7d\x7d".toList

def bibYearsTie : Str :=
  "@article\x7bka, year = \x7b2020\x7d\x7d\n@article\x7bkb, year = \x7b2023\x7d\x7d\n@article\x7bkc, year = \x7b2020\x7d\x7d".toList

/-- Claim C4: `load_publications` returns its records sorted by year
descending (Python string comparison); on a bibliography with years 2020,
2023, 2019 the output order is 2023, 2020, 2019; and the sort is stable: for
every year, the records with that year appear in the original mapping
iteration order (the pre-sort loop order), as the tie example shows. -/
theorem publications_sorted_year_desc_stable :
    (∀ (bibFile : Option Str) (metaFile : Option (List (Str × PubMeta))),
      (load_publications bibFile metaFile).1.Pairwise (fun a b => strLt a.year b.year = false))
    ∧ (∀ (content : Str) (metadata : List (Str × PubMeta)) (Y : Str),
      (load_publications (some content) (some metadata)).1.filter (fun p => p.year == Y)
        = (loadPubsRaw content metadata).1.filter (fun p => p.year == Y))
    ∧ ((load_publications (some bibYears) none).1.map (fun p => p.year)
        = ["2023".toList, "2020".toList, "2019".toList])
    ∧ ((load_publications (some bibYearsTie) none).1.map (fun p => (p.key, p.year))
        = [(("kb".toList), ("2023".toList)), (("ka".toList), ("2020".toList)),
            (("kc".toList), ("2020".toList))]) := by
  refine ⟨?_, ?_, by decide, by decide⟩
  · intro bibFile metaFile
    cases bibFile with
    | none => simp [load_publications]
    | some content =>
      simp only [load_publications]
      exact sorted_sortByYearDesc _
  · intro content metadata Y
    simp only [load_publications]
    exact filter_sortByYearDesc Y _

/-- A CV record whose bibliography has only a non-empty `journal-articles`
list. -/
def cvEg : CVData :=
  { givenName := "D".toList
    surName := "R".toList
    summary := none
    degrees := none
    employment := none
    bibliography := some
      { conferencePapers := none
        journalArticles := some [("k1".toList)]
        theses := none }
    awards := none
    skills := none }

/-- A parsed bibliography containing the referenced key `k1`. -/
def beEg : BibDict :=
  [(("k1".toList),
    [(typeKey, ("article".toList)), (("title".toList), ("T".toList)),
      (("journal".toList), ("J".toList)), (("year".toList), ("2024".toList)),
      (("author".toList), ("Doe, Jane".toList))])]

/-- Claim C3: on a CV record with a non-empty `journal-articles` key list,
render_static.py's `generate_cv_html` emits the Journal Articles subsection
(and, its other key lists being absent, neither of the other two), while
app.py's `generate_cv_html` — whose header comment claims the same logic as
render_static.py — emits no Journal Articles subsection at all. -/
theorem cv_journal_articles_divergence :
    isSubstr jaHeading (generateCvHtml cvEg beEg) = true
    ∧ isSubstr confHeading (generateCvHtml cvEg beEg) = false
    ∧ isSubstr thesesHeading (generateCvHtml cvEg beEg) = false
    ∧ isSubstr jaHeading (generateCvHtmlApp cvEg beEg) = false := by
  refine ⟨by decide, by decide, by decide, by decide⟩
